import Mathlib

/-!
# Verification of the rouse fine-grained reactivity core

A shallow embedding, in Lean 4, of the reactivity engine of the rouse
repository: the dependency graph (`track`/`trigger`), the proxy base
handlers for plain objects and arrays (`createBaseHandlers.set`,
`ownKeys`), the collection instrumentation (`clear`), the microtask
scheduler (`queueJob`/`flushJobs`), effects (`effect`, `cleanup`),
computed values (`computed`), the proxy cache (`reactive`) and the
effect-scope tree (`EffectScope`).

JavaScript values are modelled by an inductive `Val` type whose `obj`
constructor carries an object identity (a natural number), so that the
source's reference equality (`===`/`!==`) becomes decidable equality of
`Val`.  Objects observed by the proxy layer are modelled as association
lists of own properties in insertion order (matching JS property-order
semantics for string keys), arrays as `List Val`.  JS `Set`s (the
dependency sets, the scheduler queue, the child-scope sets) are modelled
as duplicate-free lists in insertion order, which matches the iteration
order of a JS `Set`.
-/

namespace Rouse

/-- A JavaScript value.  `obj i` is a reference to the object with
identity `i`; equality of `Val` is reference equality for objects
and value equality for primitives, matching `===`. -/
inductive Val where
  | undefVal
  | null
  | bool (b : Bool)
  | num (n : Int)
  | str (s : String)
  | obj (id : Nat)
  deriving DecidableEq, Repr

/-- `isObj` from `utils.ts`: `val !== null && typeof val === 'object'`. -/
def isObj : Val → Bool
  | .obj _ => true
  | _ => false

/-- A dependency-map key: either a string property key or the
`ITERATE_KEY` sentinel symbol. -/
inductive RKey where
  | str (s : String)
  | iterateKey
  deriving DecidableEq, Repr

/-! ## Own-property tables (plain objects) -/

/-- `target[key]`: read an own property, `undefined` when absent. -/
def getProp : List (String × Val) → String → Val
  | [], _ => .undefVal
  | (k', v) :: rest, k => if k' = k then v else getProp rest k

/-- `Reflect.set(target, key, value)` on a plain data object: overwrite
in place if the key exists, otherwise append (JS property order). -/
def writeProp : List (String × Val) → String → Val → List (String × Val)
  | [], k, v => [(k, v)]
  | (k', v') :: rest, k, v =>
    if k' = k then (k, v) :: rest else (k', v') :: writeProp rest k v

/-- `Object.hasOwn(target, key)`. -/
def hasOwnProp : List (String × Val) → String → Bool
  | [], _ => false
  | (k', _) :: rest, k => if k' = k then true else hasOwnProp rest k

/-! ## The `set` trap of `createBaseHandlers` (handlers.ts)

```js
set(target, key, value, receiver) {
  const oldVal = (target as any)[key];
  const result = Reflect.set(target, key, value, receiver);
  if (result && oldVal !== value) {
    trigger(target, key, value, oldVal);
    const isArrayIndex =
      Array.isArray(target) && Number.isInteger(Number(key)) && Number(key) >= target.length;
    if (isArrayIndex || !Object.hasOwn(target, key)) {
      trigger(target, Array.isArray(target) ? 'length' : ITERATE_KEY);
    }
  }
  return result;
}
```

The embedding returns the mutated property table together with the list
of `trigger` calls the trap makes, in order.  Note that, exactly as in
the source, `Object.hasOwn(target, key)` is evaluated *after*
`Reflect.set` has already written the property. -/

/-- The `set` trap applied to a plain (non-array) object.
`Array.isArray(target)` is `false`, so `isArrayIndex` short-circuits to
`false` and the structural sentinel is `ITERATE_KEY`. -/
def baseHandlersSet (props : List (String × Val)) (key : String) (value : Val) :
    List (String × Val) × List RKey :=
  let oldVal := getProp props key
  let props' := writeProp props key value
  -- Reflect.set succeeds on a plain data object
  let result := true
  if result ∧ oldVal ≠ value then
    let isArrayIndex := false
    if isArrayIndex ∨ ¬ hasOwnProp props' key then
      (props', [RKey.str key, RKey.iterateKey])
    else
      (props', [RKey.str key])
  else (props', [])

/-- `arr[n]`: reading beyond the end yields `undefined`. -/
def readIdx (a : List Val) (n : Nat) : Val := (a[n]?).getD .undefVal

/-- `Reflect.set(arr, n, v)` for a canonical numeric index `n`: writes
in range, or extends the array (holes read back as `undefined`) and
updates `length` to `n + 1`. -/
def writeIdx (a : List Val) (n : Nat) (v : Val) : List Val :=
  if n < a.length then a.set n v
  else a ++ List.replicate (n - a.length) .undefVal ++ [v]

/-- The `set` trap applied to an array at a canonical numeric index key
`n` (for which `Number.isInteger(Number(key))` holds).  Both
`target.length` and `Object.hasOwn(target, key)` are evaluated after
`Reflect.set`, as in the source. -/
def baseHandlersSetArray (a : List Val) (n : Nat) (value : Val) :
    List Val × List RKey :=
  let oldVal := readIdx a n
  let a' := writeIdx a n value
  let result := true
  if result ∧ oldVal ≠ value then
    -- Number(key) >= target.length, with target already mutated
    let isArrayIndex := decide (n ≥ a'.length)
    -- Object.hasOwn(target, key), with target already mutated
    if isArrayIndex ∨ ¬ decide (n < a'.length) then
      (a', [RKey.str (toString n), RKey.str "length"])
    else
      (a', [RKey.str (toString n)])
  else (a', [])

/-- The `ownKeys` trap: tracks `'length'` for arrays and `ITERATE_KEY`
for plain objects before returning the real key list. -/
def ownKeysTrackedKey (isArr : Bool) : RKey :=
  if isArr then RKey.str "length" else RKey.iterateKey

/-! ## The dependency map and `trigger` (gilligan.ts / effect module)

`depsMap : Map<string | symbol, Dep>` for one target is an association
list from keys to subscriber sets; each `Dep` (a JS `Set` of effects) is
a duplicate-free list of effect identities in insertion order. -/

/-- One target's `depsMap`. -/
def DepsMap := List (RKey × List Nat)

/-- `depsMap.get(key)`, an absent entry behaving as the empty set. -/
def getDep : List (RKey × List Nat) → RKey → List Nat
  | [], _ => []
  | (k', d) :: rest, k => if k' = k then d else getDep rest k

/-- The `add` helper inside `trigger`:

```js
const add = (effects) => {
  if (effects) {
    effects.forEach((effect) => {
      if (effect !== activeEffect) effectsToRun.add(effect);
    });
  }
};
```

`active` is the global `activeEffect` (`none` when no effect is
running); `acc` is the `effectsToRun` set built so far. -/
def addEffects (active : Option Nat) (acc : List Nat) (effects : List Nat) : List Nat :=
  effects.foldl (fun a e => if some e = active ∨ e ∈ a then a else a ++ [e]) acc

/-- The body of `trigger(target, key)` from the effect module of
gilligan.ts, producing `effectsToRun` in insertion order:

```js
const effectsToRun = new Set();
add(depsMap.get(key));
if (key === ITERATE_KEY || key === 'length' || (Array.isArray(target) && key === 'length')) {
  add(depsMap.get(ITERATE_KEY));
}
if (Array.isArray(target) && key !== 'length') {
  add(depsMap.get('length'));
}
if (Array.isArray(target) && key === 'length') {
  depsMap.forEach((dep, key) => {
    if (key !== 'length' && key !== ITERATE_KEY) add(dep);
  });
}
```
-/
def triggerEffectsToRun (isArr : Bool) (m : List (RKey × List Nat)) (key : RKey)
    (active : Option Nat) : List Nat :=
  let e1 := addEffects active [] (getDep m key)
  let e2 :=
    if key = RKey.iterateKey ∨ key = RKey.str "length" ∨ (isArr ∧ key = RKey.str "length")
    then addEffects active e1 (getDep m RKey.iterateKey) else e1
  let e3 :=
    if isArr ∧ key ≠ RKey.str "length"
    then addEffects active e2 (getDep m (RKey.str "length")) else e2
  if isArr ∧ key = RKey.str "length"
  then m.foldl (fun acc kv =>
    if kv.1 ≠ RKey.str "length" ∧ kv.1 ≠ RKey.iterateKey
    then addEffects active acc kv.2 else acc) e3
  else e3

/-- All effects notified by a sequence of `trigger` calls (each call
dispatches its own `effectsToRun` immediately, so runs concatenate). -/
def notifiedBy (isArr : Bool) (m : List (RKey × List Nat)) (keys : List RKey)
    (active : Option Nat) : List Nat :=
  (keys.map (fun k => triggerEffectsToRun isArr m k active)).flatten

/-! ## The collection instrumentation: `clear` (handlers.ts)

```js
clear(this: Map<any, any> | Set<any>) {
  const target = (this as any)[RAW];
  const hadItems = target.size > 0;
  const res = target.clear();
  if (hadItems) {
    trigger(target, ITERATE_KEY, undefined, undefined);
  }
  return res;
}
```
-/

/-- The instrumented `clear` on a reactive Map/Set, modelled over the
entry list of the raw container: returns the cleared container and the
list of `trigger` calls it makes. -/
def collectionClear (entries : List (Val × Val)) :
    List (Val × Val) × List RKey :=
  let hadItems := decide (0 < entries.length)
  let entries' : List (Val × Val) := []
  (entries', if hadItems then [RKey.iterateKey] else [])

/-! ## The scheduler: `queueJob` / `flushJobs` (gilligan.ts, reactivity.ts)

```js
const queue = new Set<ReactiveEffect>();

function queueJob(job) {
  if (!queue.has(job)) {
    queue.add(job);
    queueFlush();
  }
}

function flushJobs() {
  isFlushPending = false;
  queue.forEach((job) => {
    if (job.active) job();
  });
  queue.clear();
}
```

`queue` is a JS `Set`, modelled as a duplicate-free list in insertion
order.  Crucially, `Set.prototype.forEach` visits elements *added during
the iteration* as well (they are appended to the live set), so
`flushJobs` is modelled as an index-walk over a queue that can grow
while it is being drained.  Running a job is abstracted by `spec j`, the
list of `queueJob` calls (in order) the body of job `j` performs when it
runs during the flush. -/

/-- `queueJob(j)`: add `j` to the pending set unless already present. -/
def queueJob (queue : List Nat) (j : Nat) : List Nat :=
  if j ∈ queue then queue else queue ++ [j]

/-- All `queueJob` calls made by one job body, in order. -/
def queueJobs (queue : List Nat) (js : List Nat) : List Nat :=
  js.foldl queueJob queue

/-- The `queue.forEach` walk of `flushJobs`, starting at visit index
`i`: visiting job `j` runs it when `j.active`, which appends the jobs
`spec j` enqueues to the live queue; the walk then proceeds to the next
index, reaching elements appended meanwhile.  Returns the final queue
contents (before `queue.clear()`) and the ordered log of jobs that
actually ran.  `fuel` bounds the walk; any `fuel ≥` the number of
distinct jobs reachable suffices, and the theorems below hold for every
fuel. -/
def flushVisit (active : Nat → Bool) (spec : Nat → List Nat) :
    Nat → List Nat → Nat → List Nat × List Nat
  | 0, queue, _ => (queue, [])
  | fuel + 1, queue, i =>
    match queue[i]? with
    | none => (queue, [])
    | some j =>
      if active j then
        let queue' := queueJobs queue (spec j)
        let r := flushVisit active spec fuel queue' (i + 1)
        (r.1, j :: r.2)
      else
        let r := flushVisit active spec fuel queue (i + 1)
        (r.1, r.2)

/-- `flushJobs`: drain the pending set from index 0, then
`queue.clear()`.  Returns the (now empty) queue and the run log. -/
def flushJobs (active : Nat → Bool) (spec : Nat → List Nat) (fuel : Nat)
    (queue : List Nat) : List Nat × List Nat :=
  let r := flushVisit active spec fuel queue 0
  ([], r.2)

/-! ## The proxy cache: `reactive` (reactive.ts / reactivity.ts)

```js
const proxyMap = new WeakMap<object, any>();

export function reactive(target) {
  if (!isObj(target)) return target;
  if ((target as any)[IS_REACTIVE]) return target;
  if (proxyMap.has(target)) return proxyMap.get(target);
  const proxy = new Proxy(target, handler);
  proxyMap.set(target, proxy);
  return proxy;
}
```

The heap is modelled by object identities: `proxyMap` maps raw object
ids to proxy ids, `proxies` records which ids are proxies (whose `get`
trap answers `true` to the `IS_REACTIVE` probe; on a raw object the
symbol-keyed read yields `undefined`, which is falsy), and `nextId` is
the allocator for fresh proxy identities. -/

structure RState where
  proxyMap : List (Nat × Nat)
  proxies : List Nat
  nextId : Nat
  deriving DecidableEq, Repr

/-- `proxyMap.get(i)`. -/
def lookupProxy : List (Nat × Nat) → Nat → Option Nat
  | [], _ => none
  | (k, p) :: rest, i => if k = i then some p else lookupProxy rest i

/-- The `target[IS_REACTIVE]` probe: truthy exactly on proxy objects. -/
def isReactiveProbe (st : RState) : Val → Bool
  | .obj i => i ∈ st.proxies
  | _ => false

/-- `reactive(target)`. -/
def reactive (st : RState) (v : Val) : RState × Val :=
  if ¬ isObj v then (st, v)
  else if isReactiveProbe st v then (st, v)
  else
    match v with
    | .obj i =>
      match lookupProxy st.proxyMap i with
      | some p => (st, .obj p)
      | none =>
        let p := st.nextId
        ({ proxyMap := st.proxyMap ++ [(i, p)]
           proxies := st.proxies ++ [p]
           nextId := st.nextId + 1 }, .obj p)
    | _ => (st, v)

/-- Well-formedness of the proxy cache: every id in use is below the
allocator and every cached proxy id answers the `IS_REACTIVE` probe. -/
def RStateWF (st : RState) : Prop :=
  (∀ e ∈ st.proxyMap, e.1 < st.nextId ∧ e.2 < st.nextId) ∧
  (∀ p ∈ st.proxies, p < st.nextId) ∧
  (∀ e ∈ st.proxyMap, e.2 ∈ st.proxies)

instance (st : RState) : Decidable (RStateWF st) := by
  unfold RStateWF; infer_instance

/-- The input value's object identity, if any, predates the cache's
allocator mark: raw targets exist before the proxies the cache will
allocate for them. -/
def valWF (st : RState) : Val → Bool
  | .obj i => decide (i < st.nextId)
  | _ => true

/-! ## Effects: `track`, `cleanup`, the runner (effect module / reactivity.ts)

The global dependency graph `targetMap` maps a (target id, key) pair to
its subscriber set (`Dep`).  An effect owns `deps`, the list of the dep
sets it has been added to — here identified by their (target, key)
coordinates, since the graph is the authority for the sets' contents. -/

/-- The global `targetMap`, flattened to (target id, key) coordinates. -/
def Graph := List ((Nat × RKey) × List Nat)

/-- The subscriber set stored at coordinate `tk` (absent entries behave
as the empty set). -/
def depEntry : List ((Nat × RKey) × List Nat) → Nat × RKey → List Nat
  | [], _ => []
  | (tk', d) :: rest, tk => if tk' = tk then d else depEntry rest tk

/-- Replace (or create) the subscriber set at coordinate `tk`. -/
def setDepEntry : List ((Nat × RKey) × List Nat) → Nat × RKey → List Nat →
    List ((Nat × RKey) × List Nat)
  | [], tk, d => [(tk, d)]
  | (tk', d') :: rest, tk, d =>
    if tk' = tk then (tk, d) :: rest else (tk', d') :: setDepEntry rest tk d

/-- `dep.delete(effect)` at one coordinate, as performed by `cleanup`:
the set object is shared, so deletion is visible through the graph. -/
def removeFromDep (g : List ((Nat × RKey) × List Nat)) (tk : Nat × RKey) (e : Nat) :
    List ((Nat × RKey) × List Nat) :=
  g.map (fun entry => if entry.1 = tk then (entry.1, entry.2.filter (· ≠ e)) else entry)

/-- `cleanup(effect)`:

```js
function cleanup(effect) {
  const { deps } = effect;
  if (deps.length) {
    for (let i = 0; i < deps.length; i++) {
      deps[i]?.delete(effect);
    }
    deps.length = 0;
  }
}
```
-/
def cleanupEffect (g : List ((Nat × RKey) × List Nat)) (deps : List (Nat × RKey))
    (e : Nat) : List ((Nat × RKey) × List Nat) × List (Nat × RKey) :=
  (deps.foldl (fun g' tk => removeFromDep g' tk e) g, [])

/-- `track(target, key)` with `activeEffect = e`:

```js
if (!dep.has(activeEffect)) {
  dep.add(activeEffect);
  activeEffect.deps.push(dep);
}
```
-/
def trackEffect (g : List ((Nat × RKey) × List Nat)) (deps : List (Nat × RKey))
    (e : Nat) (tk : Nat × RKey) :
    List ((Nat × RKey) × List Nat) × List (Nat × RKey) :=
  let d := depEntry g tk
  if e ∈ d then (g, deps)
  else (setDepEntry g tk (d ++ [e]), deps ++ [tk])

/-- Mutable per-effect state: the `active` flag, the `deps` list and a
count of how many times the effect body `fn` has executed. -/
structure EffSt where
  active : Bool
  deps : List (Nat × RKey)
  runCount : Nat
  deriving DecidableEq, Repr

/-- The runner of the effect module in gilligan.ts (the richer variant,
with pause/resume/stop):

```js
const run = (() => {
  // If effect is stopped the normal function is returned
  if (!run.active) {
    return fn();
  }
  cleanup(run);
  try {
    effectStack.push(run);
    activeEffect = run;
    return fn();
  } finally { ... }
});
```

`reads` abstracts the body `fn`: the (target, key) coordinates it reads,
in order, each of which calls `track` while the effect is on top of the
stack.  When the effect is stopped the body still executes — but without
tracking, since the stopped branch never pushes onto the effect stack. -/
def runEffectRich (g : List ((Nat × RKey) × List Nat)) (e : Nat) (s : EffSt)
    (reads : List (Nat × RKey)) : List ((Nat × RKey) × List Nat) × EffSt :=
  if ¬ s.active then
    (g, { s with runCount := s.runCount + 1 })
  else
    let c := cleanupEffect g s.deps e
    let t := reads.foldl (fun (gd : _ × _) tk => trackEffect gd.1 gd.2 e tk) (c.1, c.2)
    (t.1, { s with deps := t.2, runCount := s.runCount + 1 })

/-- The runner of the reactivity.ts variant:

```js
const run = (() => {
  if (!run.active) return;
  cleanup(run);
  ...
});
```

Here a stopped runner is a genuine no-op. -/
def runEffectBasic (g : List ((Nat × RKey) × List Nat)) (e : Nat) (s : EffSt)
    (reads : List (Nat × RKey)) : List ((Nat × RKey) × List Nat) × EffSt :=
  if ¬ s.active then
    (g, s)
  else
    let c := cleanupEffect g s.deps e
    let t := reads.foldl (fun (gd : _ × _) tk => trackEffect gd.1 gd.2 e tk) (c.1, c.2)
    (t.1, { s with deps := t.2, runCount := s.runCount + 1 })

/-- `run.stop()`: `run.active = false; cleanup(run);`. -/
def stopEffect (g : List ((Nat × RKey) × List Nat)) (s : EffSt) (e : Nat) :
    List ((Nat × RKey) × List Nat) × EffSt :=
  let c := cleanupEffect g s.deps e
  (c.1, { s with active := false, deps := c.2 })

/-- The linking invariant maintained by `track`: whenever the graph
lists effect `e` in some subscriber set, that set's coordinate is
recorded in the effect's own `deps` list. -/
def DepsLinked (g : List ((Nat × RKey) × List Nat)) (deps : List (Nat × RKey))
    (e : Nat) : Prop :=
  ∀ entry ∈ g, e ∈ entry.2 → entry.1 ∈ deps

instance (g : List ((Nat × RKey) × List Nat)) (deps : List (Nat × RKey)) (e : Nat) :
    Decidable (DepsLinked g deps e) := by
  unfold DepsLinked; infer_instance

/-! ## Computed: `computed(getter)` (gilligan.ts effect module)

```js
export function computed(getter) {
  let value;
  let dirty = true;
  const runner = effect(getter, {
    lazy: true,
    scheduler: () => {
      if (!dirty) {
        dirty = true;
        trigger(computedRef, 'value');
      }
    },
  });
  const computedRef = {
    get value() {
      track(computedRef, 'value');
      if (dirty) {
        value = runner();
        dirty = false;
      }
      return value;
    },
    effect: runner,
  };
  return computedRef;
}
```

The getter is abstracted as a pure function `f` of the single tracked
dependency `depVal`; `getterRuns` counts invocations of the getter and
`notified` counts `trigger(computedRef, 'value')` notifications sent to
the computed's own subscribers. -/

structure CompSt where
  depVal : Int
  value : Int
  dirty : Bool
  getterRuns : Nat
  notified : Nat
  deriving DecidableEq, Repr

/-- The state of a freshly created `computed` over dependency value
`a` : lazy, so the getter has not run and the cache is dirty. -/
def computedInit (a : Int) : CompSt :=
  { depVal := a, value := 0, dirty := true, getterRuns := 0, notified := 0 }

/-- Reading `.value`: track, then recompute only when dirty. -/
def readValue (f : Int → Int) (s : CompSt) : CompSt × Int :=
  if s.dirty then
    let v := f s.depVal
    ({ s with value := v, dirty := false, getterRuns := s.getterRuns + 1 }, v)
  else (s, s.value)

/-- A write to the tracked dependency through the proxy `set` trap: the
trap triggers only when the value changed, which dispatches the
computed's scheduler — flipping `dirty` and notifying the computed's own
subscribers, without invoking the getter. -/
def writeDep (s : CompSt) (v : Int) : CompSt :=
  if s.depVal ≠ v then
    let s1 := { s with depVal := v }
    if ¬ s1.dirty then { s1 with dirty := true, notified := s1.notified + 1 }
    else s1
  else s

/-! ## Effect scopes: `EffectScope` (unnamed/part_006)

```js
export class EffectScope {
  active = true;
  effects: ReactiveEffect[] = [];
  cleanups: (() => void)[] = [];
  scopes?: Set<EffectScope>;

  stop(fromParent = false) {
    if (this.active) {
      this.active = false;
      this.effects.forEach((e) => e.stop());
      this.effects.length = 0;
      this.cleanups.forEach((cleanup) => cleanup());
      this.cleanups.length = 0;
      if (this.scopes) {
        this.scopes.forEach((s) => s.stop(true));
        this.scopes.clear();
      }
      if (this.parent && !fromParent) {
        this.parent.scopes?.delete(this);
      }
      this.parent = undefined;
    }
  }
}
```

A scope tree node carries an identity, its `active` flag, the owned
effects and registered cleanups (as identities, in registration order)
and the child-scope set (a JS `Set`, i.e. a list in insertion order).
The parent link of the source is represented by tree position; the
parent-side `scopes.delete(this)` of a non-`fromParent` stop is modelled
by `stopChildScope` on the parent node. -/

inductive Scope where
  | node (id : Nat) (active : Bool) (effects : List Nat) (cleanups : List Nat)
      (children : List Scope)

mutual

/-- `scope.stop(fromParent)`: returns the mutated scope together with the
ordered logs of (a) effects stopped, (b) cleanup callbacks invoked and
(c) scope ids whose stop body actually ran.  A stop on an inactive scope
is a no-op. -/
def stopScope : Scope → Scope × (List Nat × List Nat × List Nat)
  | .node i active effs cls children =>
    if active then
      let r := stopScopeList children
      (.node i false [] [] [], (effs ++ r.1, cls ++ r.2.1, i :: r.2.2))
    else
      (.node i active effs cls children, ([], [], []))

/-- `this.scopes.forEach((s) => s.stop(true))` in insertion order. -/
def stopScopeList : List Scope → List Nat × List Nat × List Nat
  | [] => ([], [], [])
  | c :: rest =>
    let rc := stopScope c
    let rr := stopScopeList rest
    (rc.2.1 ++ rr.1, rc.2.2.1 ++ rr.2.1, rc.2.2.2 ++ rr.2.2)

end

/-- `child.stop()` (with `fromParent = false`) observed from the parent:
the child's stop body runs and the parent's child set drops the child
(`this.parent.scopes?.delete(this)` deletes by object identity, i.e. the
element at the child's position). -/
def stopChildScope (p : Scope) (n : Nat) : Scope × (List Nat × List Nat × List Nat) :=
  match p with
  | .node i active effs cls children =>
    match children[n]? with
    | none => (p, ([], [], []))
    | some c =>
      let rc := stopScope c
      (.node i active effs cls (children.eraseIdx n), rc.2)

mutual

/-- Every scope in the tree is active. -/
def allActive : Scope → Bool
  | .node _ active _ _ children => active && allActiveList children

def allActiveList : List Scope → Bool
  | [] => true
  | c :: rest => allActive c && allActiveList rest

end

mutual

/-- The owned effects of a tree, in the order `stop` stops them. -/
def scopeEffects : Scope → List Nat
  | .node _ _ effs _ children => effs ++ scopeEffectsList children

def scopeEffectsList : List Scope → List Nat
  | [] => []
  | c :: rest => scopeEffects c ++ scopeEffectsList rest

end

mutual

/-- The registered cleanups of a tree, in the order `stop` invokes
them. -/
def scopeCleanups : Scope → List Nat
  | .node _ _ _ cls children => cls ++ scopeCleanupsList children

def scopeCleanupsList : List Scope → List Nat
  | [] => []
  | c :: rest => scopeCleanups c ++ scopeCleanupsList rest

end

mutual

/-- The scope ids of a tree in preorder. -/
def scopeIds : Scope → List Nat
  | .node i _ _ _ children => i :: scopeIdsList children

def scopeIdsList : List Scope → List Nat
  | [] => []
  | c :: rest => scopeIds c ++ scopeIdsList rest

end

/-- The identity of a scope node. -/
def scopeRootId : Scope → Nat
  | .node i _ _ _ _ => i

/-- `scope.run(fn)` (unnamed/part_006, identical branch structure in
part_005):

```js
run(fn) {
  if (this.active) {
    const currentEffectScope = activeEffectScope;
    try {
      activeEffectScope = this;
      return fn();
    } finally {
      activeEffectScope = currentEffectScope;
    }
  } else {
    console.warn(`Cannot run an inactive effect scope.`);
  }
}
```

The state carries the global `activeEffectScope` pointer (as a scope
id), the log of effect registrations `(capturing scope id, effect id)`
performed by `effect()`'s step
`if (activeEffectScope) activeEffectScope.effects.push(run)`, and the
count of `console.warn` diagnostics.  The body of `fn` is abstracted as
the list of effect ids it would create, in order; `r` is the value `fn`
returns when executed.  An inactive scope's `run` takes the `else`
branch: it warns and returns `undefined` — `fn` is never invoked, so
none of its effects are created. -/
structure CaptureSt where
  activeScope : Option Nat
  captured : List (Nat × Nat)
  warnings : Nat
  deriving DecidableEq, Repr

/-- The scope-registration step of `effect()`. -/
def createEffectInScope (st : CaptureSt) (eid : Nat) : CaptureSt :=
  match st.activeScope with
  | some sc => { st with captured := st.captured ++ [(sc, eid)] }
  | none => st

/-- `scope.run(fn)` over the capture state. -/
def scopeRun (selfId : Nat) (selfActive : Bool) (st : CaptureSt)
    (body : List Nat) (r : Int) : CaptureSt × Option Int :=
  if selfActive then
    let prev := st.activeScope
    let st1 := { st with activeScope := some selfId }
    let st2 := body.foldl createEffectInScope st1
    ({ st2 with activeScope := prev }, some r)
  else
    ({ st with warnings := st.warnings + 1 }, none)

/-! ## Lemmas about the `add` helper of `trigger` -/

theorem addEffects_cons (act : Option Nat) (acc : List Nat) (e : Nat) (rest : List Nat) :
    addEffects act acc (e :: rest) =
      addEffects act (if some e = act ∨ e ∈ acc then acc else acc ++ [e]) rest := by
  simp only [addEffects, List.foldl_cons]

theorem mem_addEffects {x : Nat} (act : Option Nat) (acc effects : List Nat) :
    x ∈ addEffects act acc effects ↔
      x ∈ acc ∨ (x ∈ effects ∧ some x ≠ act) := by
  induction effects generalizing acc with
  | nil => simp [addEffects]
  | cons e rest ih =>
    rw [addEffects_cons]
    by_cases h : some e = act ∨ e ∈ acc
    · rw [if_pos h, ih]
      constructor
      · rintro (hx | ⟨hx, hne⟩)
        · exact Or.inl hx
        · exact Or.inr ⟨List.mem_cons_of_mem _ hx, hne⟩
      · rintro (hx | ⟨hx, hne⟩)
        · exact Or.inl hx
        · rcases List.mem_cons.mp hx with rfl | hx
          · rcases h with h | h
            · exact absurd h hne
            · exact Or.inl h
          · exact Or.inr ⟨hx, hne⟩
    · rw [if_neg h, ih]
      push_neg at h
      constructor
      · rintro (hx | ⟨hx, hne⟩)
        · rcases List.mem_append.mp hx with hx | hx
          · exact Or.inl hx
          · rcases List.mem_singleton.mp hx with rfl
            exact Or.inr ⟨List.mem_cons_self _ _, h.1⟩
        · exact Or.inr ⟨List.mem_cons_of_mem _ hx, hne⟩
      · rintro (hx | ⟨hx, hne⟩)
        · exact Or.inl (List.mem_append.mpr (Or.inl hx))
        · rcases List.mem_cons.mp hx with rfl | hx
          · exact Or.inl (List.mem_append.mpr (Or.inr (List.mem_singleton.mpr rfl)))
          · exact Or.inr ⟨hx, hne⟩

theorem nodup_addEffects (act : Option Nat) (acc effects : List Nat)
    (h : acc.Nodup) : (addEffects act acc effects).Nodup := by
  induction effects generalizing acc with
  | nil => exact h
  | cons e rest ih =>
    rw [addEffects_cons]
    by_cases hc : some e = act ∨ e ∈ acc
    · rw [if_pos hc]; exact ih acc h
    · rw [if_neg hc]
      push_neg at hc
      refine ih _ (List.nodup_append.mpr ⟨h, List.nodup_singleton e, ?_⟩)
      intro a ha hb
      rw [List.mem_singleton] at hb
      subst hb
      exact hc.2 ha

theorem active_not_mem_addEffects (act : Nat) (acc effects : List Nat)
    (h : act ∉ acc) : act ∉ addEffects (some act) acc effects := by
  intro hmem
  rcases (mem_addEffects (some act) acc effects).mp hmem with hx | ⟨_, hne⟩
  · exact h hx
  · exact hne rfl

/-- The `depsMap.forEach` fold of the array-`length` branch never adds
the active effect and preserves dedup. -/
theorem depsMapFold_not_mem (act : Nat) (m : List (RKey × List Nat))
    (acc : List Nat) (h : act ∉ acc) :
    act ∉ m.foldl (fun acc kv =>
      if kv.1 ≠ RKey.str "length" ∧ kv.1 ≠ RKey.iterateKey
      then addEffects (some act) acc kv.2 else acc) acc := by
  induction m generalizing acc with
  | nil => exact h
  | cons kv rest ih =>
    simp only [List.foldl_cons]
    by_cases hc : kv.1 ≠ RKey.str "length" ∧ kv.1 ≠ RKey.iterateKey
    · rw [if_pos hc]; exact ih _ (active_not_mem_addEffects act acc kv.2 h)
    · rw [if_neg hc]; exact ih _ h

theorem depsMapFold_nodup (act : Option Nat) (m : List (RKey × List Nat))
    (acc : List Nat) (h : acc.Nodup) :
    (m.foldl (fun acc kv =>
      if kv.1 ≠ RKey.str "length" ∧ kv.1 ≠ RKey.iterateKey
      then addEffects act acc kv.2 else acc) acc).Nodup := by
  induction m generalizing acc with
  | nil => exact h
  | cons kv rest ih =>
    simp only [List.foldl_cons]
    by_cases hc : kv.1 ≠ RKey.str "length" ∧ kv.1 ≠ RKey.iterateKey
    · rw [if_pos hc]; exact ih _ (nodup_addEffects act acc kv.2 h)
    · rw [if_neg hc]; exact ih _ h

theorem nodup_ite_addEffects (c : Prop) [Decidable c] (act : Option Nat)
    (acc d : List Nat) (h : acc.Nodup) :
    (if c then addEffects act acc d else acc).Nodup := by
  split
  · exact nodup_addEffects _ _ _ h
  · exact h

theorem not_mem_ite_addEffects (c : Prop) [Decidable c] (act : Nat)
    (acc d : List Nat) (h : act ∉ acc) :
    act ∉ (if c then addEffects (some act) acc d else acc) := by
  split
  · exact active_not_mem_addEffects _ _ _ h
  · exact h

theorem nodup_ite_fold (c : Prop) [Decidable c] (act : Option Nat)
    (m : List (RKey × List Nat)) (acc : List Nat) (h : acc.Nodup) :
    (if c then m.foldl (fun acc kv =>
        if kv.1 ≠ RKey.str "length" ∧ kv.1 ≠ RKey.iterateKey
        then addEffects act acc kv.2 else acc) acc else acc).Nodup := by
  split
  · exact depsMapFold_nodup act m acc h
  · exact h

theorem not_mem_ite_fold (c : Prop) [Decidable c] (act : Nat)
    (m : List (RKey × List Nat)) (acc : List Nat) (h : act ∉ acc) :
    act ∉ (if c then m.foldl (fun acc kv =>
        if kv.1 ≠ RKey.str "length" ∧ kv.1 ≠ RKey.iterateKey
        then addEffects (some act) acc kv.2 else acc) acc else acc) := by
  split
  · exact depsMapFold_not_mem act m acc h
  · exact h

/-- `effectsToRun` is duplicate-free: `trigger` notifies each
computation at most once per call. -/
theorem nodup_triggerEffectsToRun (isArr : Bool) (m : List (RKey × List Nat))
    (key : RKey) (act : Option Nat) :
    (triggerEffectsToRun isArr m key act).Nodup := by
  unfold triggerEffectsToRun
  exact nodup_ite_fold _ _ _ _ (nodup_ite_addEffects _ _ _ _
    (nodup_ite_addEffects _ _ _ _ (nodup_addEffects _ _ _ List.nodup_nil)))

/-- The `add` helper filters the active effect, so no branch of
`trigger` ever places the currently running effect in `effectsToRun`. -/
theorem self_not_mem_triggerEffectsToRun (isArr : Bool)
    (m : List (RKey × List Nat)) (key : RKey) (a : Nat) :
    a ∉ triggerEffectsToRun isArr m key (some a) := by
  unfold triggerEffectsToRun
  exact not_mem_ite_fold _ _ _ _ (not_mem_ite_addEffects _ _ _ _
    (not_mem_ite_addEffects _ _ _ _
      (active_not_mem_addEffects _ _ _ (List.not_mem_nil a))))

/-- On a plain object, `trigger` for an ordinary string key reduces to
the per-key subscriber set. -/
theorem triggerEffectsToRun_record_str (m : List (RKey × List Nat))
    (k : String) (act : Option Nat) (hk : k ≠ "length") :
    triggerEffectsToRun false m (RKey.str k) act
      = addEffects act [] (getDep m (RKey.str k)) := by
  simp [triggerEffectsToRun, hk]

/-- On a plain object or collection, `trigger` for the `ITERATE_KEY`
sentinel adds the iteration subscribers (the first two branches add the
same set; the set semantics make the second addition a no-op). -/
theorem triggerEffectsToRun_record_iter (m : List (RKey × List Nat))
    (act : Option Nat) :
    triggerEffectsToRun false m RKey.iterateKey act
      = addEffects act (addEffects act [] (getDep m RKey.iterateKey))
          (getDep m RKey.iterateKey) := by
  simp [triggerEffectsToRun]

theorem mem_triggerEffectsToRun_record_iter {x : Nat}
    (m : List (RKey × List Nat)) (act : Option Nat) :
    x ∈ triggerEffectsToRun false m RKey.iterateKey act ↔
      x ∈ getDep m RKey.iterateKey ∧ some x ≠ act := by
  rw [triggerEffectsToRun_record_iter]
  simp only [mem_addEffects]
  tauto

/-! ## Lemmas about the base `set` trap -/

theorem hasOwnProp_writeProp (props : List (String × Val)) (k : String) (v : Val) :
    hasOwnProp (writeProp props k v) k = true := by
  induction props with
  | nil => simp [writeProp, hasOwnProp]
  | cons p rest ih =>
    by_cases h : p.1 = k <;>
      simp [writeProp, hasOwnProp, h, ih]

/-- Because `Object.hasOwn(target, key)` is evaluated only after
`Reflect.set` has already created the property, the structural branch of
the `set` trap never fires on a plain object: a changing write triggers
exactly the per-key dependency, and a same-value write triggers
nothing. -/
theorem baseHandlersSet_eq (props : List (String × Val)) (k : String) (v : Val) :
    baseHandlersSet props k v =
      (writeProp props k v,
        if getProp props k ≠ v then [RKey.str k] else []) := by
  have hw := hasOwnProp_writeProp props k v
  by_cases h : getProp props k = v <;> simp [baseHandlersSet, h, hw]

theorem lt_length_writeIdx (a : List Val) (n : Nat) (v : Val) :
    n < (writeIdx a n v).length := by
  unfold writeIdx
  split
  · simpa using ‹n < a.length›
  · simp only [List.length_append, List.length_replicate, List.length_singleton]
    omega

/-- The analogous dead branch on arrays: `target.length` is read only
after `Reflect.set` has already extended the array, so `isArrayIndex`
and `!Object.hasOwn(target, key)` are both false and the `set` trap
itself never issues the `'length'` trigger. -/
theorem baseHandlersSetArray_eq (a : List Val) (n : Nat) (v : Val) :
    baseHandlersSetArray a n v =
      (writeIdx a n v,
        if readIdx a n ≠ v then [RKey.str (toString n)] else []) := by
  have h := lt_length_writeIdx a n v
  by_cases hc : readIdx a n = v <;>
    simp [baseHandlersSetArray, hc, h, Nat.not_le.mpr h]

/-! ## Lemmas about the scheduler -/

theorem queueJobs_extend (q : List Nat) (js : List Nat) :
    ∃ t, queueJobs q js = q ++ t := by
  induction js generalizing q with
  | nil => exact ⟨[], by simp [queueJobs]⟩
  | cons j rest ih =>
    have step : queueJobs q (j :: rest) = queueJobs (queueJob q j) rest := by
      simp [queueJobs]
    by_cases hj : j ∈ q
    · have hq : queueJob q j = q := by simp [queueJob, hj]
      rw [step, hq]
      exact ih q
    · have hq : queueJob q j = q ++ [j] := by simp [queueJob, hj]
      rw [step, hq]
      rcases ih (q ++ [j]) with ⟨t, ht⟩
      exact ⟨j :: t, by simpa using ht⟩

theorem nodup_queueJob (q : List Nat) (j : Nat) (h : q.Nodup) :
    (queueJob q j).Nodup := by
  unfold queueJob
  by_cases hj : j ∈ q
  · rw [if_pos hj]
    exact h
  · rw [if_neg hj]
    refine List.nodup_append.mpr ⟨h, List.nodup_singleton j, ?_⟩
    intro x hx hxe
    rw [List.mem_singleton] at hxe
    subst hxe
    exact hj hx

theorem nodup_queueJobs (q : List Nat) (js : List Nat) (h : q.Nodup) :
    (queueJobs q js).Nodup := by
  induction js generalizing q with
  | nil => exact h
  | cons j rest ih =>
    have step : queueJobs q (j :: rest) = queueJobs (queueJob q j) rest := by
      simp [queueJobs]
    rw [step]
    exact ih _ (nodup_queueJob q j h)

theorem flushVisit_queue_extend (a : Nat → Bool) (s : Nat → List Nat)
    (fuel : Nat) (q : List Nat) (i : Nat) :
    ∃ t, (flushVisit a s fuel q i).1 = q ++ t := by
  induction fuel generalizing q i with
  | zero => exact ⟨[], by simp [flushVisit]⟩
  | succ fuel ih =>
    unfold flushVisit
    cases hq : q[i]? with
    | none => exact ⟨[], by simp⟩
    | some j =>
      by_cases hj : a j = true
      · rcases queueJobs_extend q (s j) with ⟨t1, ht1⟩
        rcases ih (queueJobs q (s j)) (i + 1) with ⟨t2, ht2⟩
        refine ⟨t1 ++ t2, ?_⟩
        simp only [hj, if_pos]
        rw [ht2, ht1, List.append_assoc]
      · rcases ih q (i + 1) with ⟨t, ht⟩
        exact ⟨t, by simp [hj, ht]⟩

theorem flushVisit_nodup_queue (a : Nat → Bool) (s : Nat → List Nat)
    (fuel : Nat) (q : List Nat) (i : Nat) (h : q.Nodup) :
    (flushVisit a s fuel q i).1.Nodup := by
  induction fuel generalizing q i with
  | zero => exact h
  | succ fuel ih =>
    unfold flushVisit
    cases hq : q[i]? with
    | none => exact h
    | some j =>
      by_cases hj : a j = true
      · simpa [hj] using ih (queueJobs q (s j)) (i + 1) (nodup_queueJobs q (s j) h)
      · simpa [hj] using ih q (i + 1) h

theorem flushVisit_getElem (a : Nat → Bool) (s : Nat → List Nat)
    (fuel : Nat) (q : List Nat) (i n : Nat) (x : Nat) (h : q[n]? = some x) :
    (flushVisit a s fuel q i).1[n]? = some x := by
  rcases flushVisit_queue_extend a s fuel q i with ⟨t, ht⟩
  rw [ht]
  have hn : n < q.length := by
    by_contra hcon
    rw [List.getElem?_eq_none (Nat.le_of_not_lt hcon)] at h
    exact Option.noConfusion h
  rw [List.getElem?_append, if_pos hn]
  exact h

theorem queueJobs_getElem (q : List Nat) (js : List Nat) (n : Nat) (x : Nat)
    (h : q[n]? = some x) : (queueJobs q js)[n]? = some x := by
  rcases queueJobs_extend q js with ⟨t, ht⟩
  rw [ht]
  have hn : n < q.length := by
    by_contra hcon
    rw [List.getElem?_eq_none (Nat.le_of_not_lt hcon)] at h
    exact Option.noConfusion h
  rw [List.getElem?_append, if_pos hn]
  exact h

/-- Every job in the run log of a flush sits in the final queue at a
visit index at or beyond the starting index. -/
theorem flushVisit_log_indices (a : Nat → Bool) (s : Nat → List Nat)
    (fuel : Nat) (q : List Nat) (i : Nat) :
    ∀ x ∈ (flushVisit a s fuel q i).2,
      ∃ k, i ≤ k ∧ (flushVisit a s fuel q i).1[k]? = some x := by
  induction fuel generalizing q i with
  | zero => simp [flushVisit]
  | succ fuel ih =>
    unfold flushVisit
    cases hq : q[i]? with
    | none => simp
    | some j =>
      by_cases hj : a j = true
      · simp only [hj, if_pos]
        intro x hx
        rcases List.mem_cons.mp hx with rfl | hx
        · refine ⟨i, Nat.le_refl i, ?_⟩
          exact flushVisit_getElem a s fuel _ (i + 1) i x
            (queueJobs_getElem q (s x) i x hq)
        · rcases ih (queueJobs q (s j)) (i + 1) x hx with ⟨k, hk, hget⟩
          exact ⟨k, Nat.le_of_succ_le hk, hget⟩
      · simp only [hj]
        intro x hx
        rcases ih q (i + 1) x (by simpa using hx) with ⟨k, hk, hget⟩
        exact ⟨k, Nat.le_of_succ_le hk, by simpa using hget⟩

/-- Within a single flush no job runs twice: the pending set
deduplicates (`if (!queue.has(job))`), so the run log of one drain is
duplicate-free even when jobs re-enqueue themselves or each other. -/
theorem flushVisit_log_nodup (a : Nat → Bool) (s : Nat → List Nat)
    (fuel : Nat) (q : List Nat) (i : Nat) (h : q.Nodup) :
    (flushVisit a s fuel q i).2.Nodup := by
  induction fuel generalizing q i with
  | zero => simp [flushVisit]
  | succ fuel ih =>
    unfold flushVisit
    cases hq : q[i]? with
    | none => simp
    | some j =>
      by_cases hj : a j = true
      · simp only [hj, if_pos]
        refine List.nodup_cons.mpr ⟨?_, ih (queueJobs q (s j)) (i + 1)
          (nodup_queueJobs q (s j) h)⟩
        intro hjmem
        rcases flushVisit_log_indices a s fuel (queueJobs q (s j)) (i + 1) j hjmem
          with ⟨k, hk, hget⟩
        have hi : (flushVisit a s fuel (queueJobs q (s j)) (i + 1)).1[i]? = some j :=
          flushVisit_getElem a s fuel _ (i + 1) i j (queueJobs_getElem q (s j) i j hq)
        have hnd : (flushVisit a s fuel (queueJobs q (s j)) (i + 1)).1.Nodup :=
          flushVisit_nodup_queue a s fuel _ (i + 1) (nodup_queueJobs q (s j) h)
        have hik : i = k := by
          have hi' : i < (flushVisit a s fuel (queueJobs q (s j)) (i + 1)).1.length := by
            by_contra hcon
            rw [List.getElem?_eq_none (Nat.le_of_not_lt hcon)] at hi
            exact Option.noConfusion hi
          exact List.getElem?_inj hi' hnd (hi.trans hget.symm)
        omega
      · simp only [hj]
        exact ih q (i + 1) h

/-! ## Lemmas about the proxy cache -/

theorem lookupProxy_mem (l : List (Nat × Nat)) (i p : Nat)
    (h : lookupProxy l i = some p) : (i, p) ∈ l := by
  induction l with
  | nil => exact absurd h (by simp [lookupProxy])
  | cons e rest ih =>
    unfold lookupProxy at h
    split at h
    · rcases Option.some_injective _ h with rfl
      exact List.mem_cons.mpr (Or.inl (by rw [← ‹e.1 = i›]))
    · exact List.mem_cons_of_mem _ (ih h)

theorem lookupProxy_append_self (l : List (Nat × Nat)) (i p : Nat)
    (h : lookupProxy l i = none) :
    lookupProxy (l ++ [(i, p)]) i = some p := by
  induction l with
  | nil => simp [lookupProxy]
  | cons e rest ih =>
    unfold lookupProxy at h ⊢
    split at h
    · exact Option.noConfusion h
    · simpa [‹¬ e.1 = i›] using ih h

/-! ## Claim theorems -/

/-- C1: the claim says a write of a previously absent key triggers the
structural (`ITERATE_KEY`) sentinel so enumeration effects re-run.  The
code evaluates `Object.hasOwn(target, key)` only *after* `Reflect.set`
has created the property, so the structural branch is unreachable: on
every plain-object write the trap issues at most the per-key trigger
(first conjunct), and at the failing input — a fresh key `"b"` written
to a reactive `{}` while effect `7` subscribes to `ITERATE_KEY` via key
enumeration — nothing at all is notified (remaining conjuncts).  On
arrays the trap's own `'length'` trigger is likewise unreachable, since
`target.length` is also read post-write (last conjunct). -/
theorem C1_new_key_write_skips_structural_sentinel :
    (∀ props k v, (baseHandlersSet props k v).2
        = if getProp props k ≠ v then [RKey.str k] else [])
    ∧ baseHandlersSet [] "b" (Val.num 1) = ([("b", Val.num 1)], [RKey.str "b"])
    ∧ notifiedBy false [(RKey.iterateKey, [7])]
        (baseHandlersSet [] "b" (Val.num 1)).2 none = []
    ∧ (∀ a n v, (baseHandlersSetArray a n v).2
        = if readIdx a n ≠ v then [RKey.str (toString n)] else []) := by
  refine ⟨?_, by decide, by decide, ?_⟩
  · intro props k v
    rw [baseHandlersSet_eq]
  · intro a n v
    rw [baseHandlersSetArray_eq]

/-- C2 counterexample: the pending set is a live JS `Set` whose
`forEach` visits elements appended during iteration.  With pending set
`{0}` where running job `0` enqueues the fresh job `1`, the
currently-draining flush runs job `1` too — the claim said a job
enqueued during the flush is run only by the next flush cycle. -/
theorem C2_enqueued_during_flush_runs_in_same_flush :
    1 ∈ (flushJobs (fun _ => true) (fun n => if n = 0 then [1] else []) 3 [0]).2 := by
  have h : (flushJobs (fun _ => true) (fun n => if n = 0 then [1] else []) 3 [0]).2
      = [0, 1] := by decide
  rw [h]
  decide

/-- C2 (amended): a job newly enqueued during the flush is appended to
the live pending set and run by the currently-draining flush; a job that
re-enqueues itself synchronously during its own run is deduplicated
(`queue.has(job)` still holds while draining), so it neither loops nor
runs twice within one flush — the run log of a single flush is
duplicate-free. -/
theorem C2_flush_runs_each_job_at_most_once (a : Nat → Bool)
    (s : Nat → List Nat) (fuel : Nat) (q : List Nat) (h : q.Nodup) :
    (flushJobs a s fuel q).2.Nodup
    ∧ (flushJobs (fun _ => true) (fun n => [n]) 2 [5]).2 = [5]
    ∧ (flushJobs (fun _ => true) (fun n => if n = 0 then [1] else []) 3 [0]).2
        = [0, 1] :=
  ⟨flushVisit_log_nodup a s fuel q 0 h, by decide, by decide⟩

/-- C2 amended-claim witness: a concrete duplicate-free pending set. -/
theorem C2_flush_runs_each_job_at_most_once_witness :
    (flushJobs (fun _ => true) (fun n => [n + 1]) 4 [0, 1]).2.Nodup
    ∧ (flushJobs (fun _ => true) (fun n => [n]) 2 [5]).2 = [5]
    ∧ (flushJobs (fun _ => true) (fun n => if n = 0 then [1] else []) 3 [0]).2
        = [0, 1] :=
  C2_flush_runs_each_job_at_most_once (fun _ => true) (fun n => [n + 1]) 4 [0, 1]
    (by decide)

/-- C5: `reactive` is idempotent and identity-stable, and passes
non-composite values through unchanged: wrapping the result of
`reactive` again is a no-op (the proxy answers the `IS_REACTIVE` probe),
wrapping the same target twice yields the same proxy (the `proxyMap`
cache), and primitives are returned as-is without touching the state. -/
theorem C5_reactive_idempotent_and_identity_stable (st : RState) (v : Val)
    (h : RStateWF st) (hv : valWF st v = true) :
    reactive (reactive st v).1 (reactive st v).2 = reactive st v
    ∧ reactive (reactive st v).1 v = reactive st v
    ∧ (isObj v = false → reactive st v = (st, v)) := by
  rcases h with ⟨hids, hprox, hmap⟩
  cases v with
  | obj i =>
    by_cases hp : i ∈ st.proxies
    · have hr : reactive st (Val.obj i) = (st, Val.obj i) := by
        simp [reactive, isObj, isReactiveProbe, hp]
      rw [hr]
      exact ⟨hr, hr, by simp [isObj]⟩
    · cases hl : lookupProxy st.proxyMap i with
      | some p =>
        have hr : reactive st (Val.obj i) = (st, Val.obj p) := by
          simp [reactive, isObj, isReactiveProbe, hp, hl]
        have hpp : p ∈ st.proxies := hmap (i, p) (lookupProxy_mem _ i p hl)
        have hr2 : reactive st (Val.obj p) = (st, Val.obj p) := by
          simp [reactive, isObj, isReactiveProbe, hpp]
        rw [hr]
        exact ⟨hr2, hr, by simp [isObj]⟩
      | none =>
        have hi : i < st.nextId := by simpa [valWF] using hv
        have hr : reactive st (Val.obj i) =
            ({ proxyMap := st.proxyMap ++ [(i, st.nextId)]
               proxies := st.proxies ++ [st.nextId]
               nextId := st.nextId + 1 }, Val.obj st.nextId) := by
          simp [reactive, isObj, isReactiveProbe, hp, hl]
        rw [hr]
        refine ⟨?_, ?_, by simp [isObj]⟩
        · simp [reactive, isObj, isReactiveProbe]
        · have hip : i ∉ st.proxies ++ [st.nextId] := by
            intro hmem
            rcases List.mem_append.mp hmem with hmem | hmem
            · exact hp hmem
            · rw [List.mem_singleton] at hmem
              omega
          have hlk : lookupProxy (st.proxyMap ++ [(i, st.nextId)]) i
              = some st.nextId := lookupProxy_append_self _ i st.nextId hl
          simp [reactive, isObj, isReactiveProbe, hip, hlk]
  | undefVal =>
    exact ⟨by simp [reactive, isObj], by simp [reactive, isObj], fun _ => by
      simp [reactive, isObj]⟩
  | null =>
    exact ⟨by simp [reactive, isObj], by simp [reactive, isObj], fun _ => by
      simp [reactive, isObj]⟩
  | bool b =>
    exact ⟨by simp [reactive, isObj], by simp [reactive, isObj], fun _ => by
      simp [reactive, isObj]⟩
  | num n =>
    exact ⟨by simp [reactive, isObj], by simp [reactive, isObj], fun _ => by
      simp [reactive, isObj]⟩
  | str s =>
    exact ⟨by simp [reactive, isObj], by simp [reactive, isObj], fun _ => by
      simp [reactive, isObj]⟩

/-- C5 witness: a fresh raw object `0` wrapped in the empty cache with
allocator at `1`. -/
theorem C5_reactive_idempotent_and_identity_stable_witness :
    (reactive (reactive ⟨[], [], 1⟩ (Val.obj 0)).1
        (reactive ⟨[], [], 1⟩ (Val.obj 0)).2 = reactive ⟨[], [], 1⟩ (Val.obj 0))
    ∧ (reactive (reactive ⟨[], [], 1⟩ (Val.obj 0)).1 (Val.obj 0)
        = reactive ⟨[], [], 1⟩ (Val.obj 0))
    ∧ (isObj (Val.obj 0) = false → reactive ⟨[], [], 1⟩ (Val.obj 0)
        = (⟨[], [], 1⟩, Val.obj 0)) :=
  C5_reactive_idempotent_and_identity_stable ⟨[], [], 1⟩ (Val.obj 0)
    (by refine ⟨?_, ?_, ?_⟩ <;> simp) (by decide)

/-- C6: the proxy `set` trap triggers the (target, key) subscribers iff
the (successful) write changed the stored value: the per-key trigger
fires iff the old value differs; a same-value write notifies no one; and
a changing write notifies a subscribed effect exactly once. -/
theorem C6_trigger_iff_value_changed (props : List (String × Val)) (k : String)
    (v : Val) (m : List (RKey × List Nat)) (act : Option Nat) (e : Nat)
    (hk : k ≠ "length") (hmem : e ∈ getDep m (RKey.str k)) (hact : some e ≠ act) :
    (RKey.str k ∈ (baseHandlersSet props k v).2 ↔ getProp props k ≠ v)
    ∧ (getProp props k = v →
        notifiedBy false m (baseHandlersSet props k v).2 act = [])
    ∧ (getProp props k ≠ v →
        (notifiedBy false m (baseHandlersSet props k v).2 act).count e = 1) := by
  rw [baseHandlersSet_eq]
  by_cases h : getProp props k = v
  · refine ⟨by simp [h], fun _ => by simp [h, notifiedBy], fun hne => absurd h hne⟩
  · refine ⟨by simp [h], fun hv => absurd hv h, fun _ => ?_⟩
    have hrw : notifiedBy false m (if getProp props k ≠ v then [RKey.str k] else []) act
        = triggerEffectsToRun false m (RKey.str k) act := by
      simp [h, notifiedBy]
    rw [hrw, triggerEffectsToRun_record_str m k act hk]
    exact List.count_eq_one_of_mem
      (nodup_addEffects act [] (getDep m (RKey.str k)) List.nodup_nil)
      ((mem_addEffects act [] (getDep m (RKey.str k))).mpr (Or.inr ⟨hmem, hact⟩))

/-- C6 witness: `state = reactive({count: 0})` with effect `3`
subscribed to `count` and no effect running. -/
theorem C6_trigger_iff_value_changed_witness :
    (RKey.str "count" ∈
        (baseHandlersSet [("count", Val.num 0)] "count" (Val.num 1)).2
      ↔ getProp [("count", Val.num 0)] "count" ≠ Val.num 1)
    ∧ (getProp [("count", Val.num 0)] "count" = Val.num 1 →
        notifiedBy false [(RKey.str "count", [3])]
          (baseHandlersSet [("count", Val.num 0)] "count" (Val.num 1)).2 none = [])
    ∧ (getProp [("count", Val.num 0)] "count" ≠ Val.num 1 →
        (notifiedBy false [(RKey.str "count", [3])]
          (baseHandlersSet [("count", Val.num 0)] "count" (Val.num 1)).2 none).count 3
          = 1) :=
  C6_trigger_iff_value_changed [("count", Val.num 0)] "count" (Val.num 1)
    [(RKey.str "count", [3])] none 3 (by decide) (by decide) (by decide)

/-- C8: the `add` helper of `trigger` excludes the currently running
effect, so a trigger fired from inside an effect's own body never
notifies that effect (its occurrence count in `effectsToRun` is zero)
and notifies every other computation at most once. -/
theorem C8_running_effect_excluded_from_trigger (isArr : Bool)
    (m : List (RKey × List Nat)) (key : RKey) (a : Nat) :
    (triggerEffectsToRun isArr m key (some a)).count a = 0
    ∧ (triggerEffectsToRun isArr m key (some a)).Nodup :=
  ⟨List.count_eq_zero.mpr (self_not_mem_triggerEffectsToRun isArr m key a),
    nodup_triggerEffectsToRun isArr m key (some a)⟩

/-- C10: the instrumented `clear` triggers only the `ITERATE_KEY`
sentinel and only when the container was non-empty: clearing an empty
container notifies nobody; an effect is notified iff the container had
items, it subscribes to `ITERATE_KEY`, and it is not the currently
running effect; an effect subscribed only to specific entry keys (via
instrumented `get`/`has`) is never notified. -/
theorem C10_clear_notifies_only_iteration_subscribers
    (entries : List (Val × Val)) (m : List (RKey × List Nat))
    (act : Option Nat) (e : Nat) :
    (notifiedBy false m (collectionClear ([] : List (Val × Val))).2 act = [])
    ∧ (e ∈ notifiedBy false m (collectionClear entries).2 act ↔
        0 < entries.length ∧ e ∈ getDep m RKey.iterateKey ∧ some e ≠ act)
    ∧ (e ∉ getDep m RKey.iterateKey →
        (notifiedBy false m (collectionClear entries).2 act).count e = 0) := by
  have hmem : ∀ es : List (Val × Val),
      (e ∈ notifiedBy false m (collectionClear es).2 act ↔
        0 < es.length ∧ e ∈ getDep m RKey.iterateKey ∧ some e ≠ act) := by
    intro es
    by_cases hE : 0 < es.length
    · have h2 : (collectionClear es).2 = [RKey.iterateKey] := by
        simp [collectionClear, hE]
      rw [h2]
      have hn : notifiedBy false m [RKey.iterateKey] act
          = triggerEffectsToRun false m RKey.iterateKey act := by
        simp [notifiedBy]
      rw [hn, mem_triggerEffectsToRun_record_iter]
      simp [hE]
    · have h2 : (collectionClear es).2 = [] := by
        simp [collectionClear, hE]
      rw [h2]
      simp [notifiedBy, hE]
  refine ⟨?_, hmem entries, fun hni => ?_⟩
  · have h2 : (collectionClear ([] : List (Val × Val))).2 = [] := by
      simp [collectionClear]
    rw [h2]
    simp [notifiedBy]
  · refine List.count_eq_zero.mpr fun hmm => ?_
    exact hni ((hmem entries).mp hmm).2.1

/-- C10 witness: a Map with one entry, effect `3` subscribed to the
iteration sentinel, effect `4` subscribed to entry key `k` only; `4`
derives the per-key-not-notified conjunct. -/
theorem C10_clear_notifies_only_iteration_subscribers_witness :
    (notifiedBy false [(RKey.iterateKey, [3]), (RKey.str "k", [4])]
        (collectionClear ([] : List (Val × Val))).2 none = [])
    ∧ (4 ∈ notifiedBy false [(RKey.iterateKey, [3]), (RKey.str "k", [4])]
        (collectionClear [(Val.num 1, Val.num 2)]).2 none ↔
        0 < [(Val.num 1, Val.num 2)].length ∧
        4 ∈ getDep [(RKey.iterateKey, [3]), (RKey.str "k", [4])] RKey.iterateKey ∧
        some 4 ≠ (none : Option Nat))
    ∧ (4 ∉ getDep [(RKey.iterateKey, [3]), (RKey.str "k", [4])] RKey.iterateKey →
        (notifiedBy false [(RKey.iterateKey, [3]), (RKey.str "k", [4])]
          (collectionClear [(Val.num 1, Val.num 2)]).2 none).count 4 = 0) :=
  C10_clear_notifies_only_iteration_subscribers [(Val.num 1, Val.num 2)]
    [(RKey.iterateKey, [3]), (RKey.str "k", [4])] none 4

/-- While a scope is current, every effect created by the running body
registers with that scope, and registration leaves the pointer
unchanged. -/
theorem foldl_createEffectInScope (body : List Nat) (st : CaptureSt) (sc : Nat)
    (h : st.activeScope = some sc) :
    (body.foldl createEffectInScope st).activeScope = some sc
    ∧ (body.foldl createEffectInScope st).captured
        = st.captured ++ body.map (fun e => (sc, e)) := by
  induction body generalizing st with
  | nil => simpa using h
  | cons eid rest ih =>
    have hstep : createEffectInScope st eid
        = { st with captured := st.captured ++ [(sc, eid)] } := by
      simp [createEffectInScope, h]
    have := ih { st with captured := st.captured ++ [(sc, eid)] } (by simpa using h)
    simpa [hstep] using this

/-- C3 counterexample: the claim says `run(fn)` on a stopped scope still
executes `fn` and returns its result.  In the code the inactive branch
only warns and returns `undefined`: at a concrete stopped scope the
result is not `fn`'s value, `fn`'s effect creations never happen, and a
diagnostic is counted. -/
theorem C3_stopped_scope_run_does_not_execute_fn :
    (scopeRun 1 false ⟨none, [], 0⟩ [7] 42).2 ≠ some 42
    ∧ (scopeRun 1 false ⟨none, [], 0⟩ [7] 42).1.captured = []
    ∧ (scopeRun 1 false ⟨none, [], 0⟩ [7] 42).1.warnings = 1 := by
  refine ⟨by decide, by decide, by decide⟩

/-- C3 (amended): calling `run(fn)` on a stopped scope emits a
diagnostic warning, performs no effect capture, does **not** execute
`fn`, and returns `undefined` — and it never throws; on an active scope
`fn` runs with the scope current (all its effects are captured by this
scope) and the previous active-scope pointer is restored afterwards. -/
theorem C3_run_on_stopped_scope (selfId : Nat) (st : CaptureSt)
    (body : List Nat) (r : Int) :
    scopeRun selfId false st body r
        = ({ st with warnings := st.warnings + 1 }, none)
    ∧ (scopeRun selfId true st body r).1.activeScope = st.activeScope
    ∧ (scopeRun selfId true st body r).1.captured
        = st.captured ++ body.map (fun e => (selfId, e))
    ∧ (scopeRun selfId true st body r).2 = some r := by
  have hf := foldl_createEffectInScope body
    { st with activeScope := some selfId } selfId rfl
  exact ⟨by simp [scopeRun], by simp [scopeRun], by simpa [scopeRun] using hf.2,
    by simp [scopeRun]⟩

/-- `cleanup` deletes the effect from the dep set at every coordinate
recorded in its `deps` list; given the linking invariant, afterwards the
effect sits in no subscriber set of the graph at all. -/
theorem cleanup_removes_everywhere (ds : List (Nat × RKey))
    (g : List ((Nat × RKey) × List Nat)) (e : Nat)
    (H : ∀ entry ∈ g, e ∈ entry.2 → entry.1 ∈ ds) :
    ∀ entry ∈ ds.foldl (fun g' tk => removeFromDep g' tk e) g, e ∉ entry.2 := by
  induction ds generalizing g with
  | nil =>
    intro entry hmem hin
    exact absurd (H entry hmem hin) (List.not_mem_nil _)
  | cons tk rest ih =>
    intro entry hmem
    refine ih (removeFromDep g tk e) ?_ entry (by simpa using hmem)
    intro en hen hein
    rcases List.mem_map.mp hen with ⟨orig, horig, heq⟩
    by_cases hk : orig.1 = tk
    · rw [if_pos hk] at heq
      subst heq
      simp at hein
    · rw [if_neg hk] at heq
      subst heq
      rcases List.mem_cons.mp (H orig horig hein) with h1 | h1
      · exact absurd h1 hk
      · exact h1

/-- C4 counterexample: the claim says a stopped effect's body never runs
again even when the returned runner is invoked manually.  In the effect
module of gilligan.ts the stopped branch is `return fn()`: invoking a
concrete stopped runner executes its body once. -/
theorem C4_stopped_runner_still_executes_body :
    (runEffectRich ([] : List ((Nat × RKey) × List Nat)) 1
      { active := false, deps := [], runCount := 0 } []).2.runCount ≠ 0 := by
  decide

/-- C4 (amended): `stop()` deactivates the effect and removes it from
every dependency set it belonged to, so triggers can never reach it
again; a stopped runner invoked manually is a no-op in the reactivity.ts
variant, while in the richer effect-module variant it executes the body
exactly once more — untracked, leaving the graph and the effect's `deps`
untouched. -/
theorem C4_stop_detaches_effect (g : List ((Nat × RKey) × List Nat))
    (s : EffSt) (e : Nat) (reads : List (Nat × RKey))
    (hInv : DepsLinked g s.deps e) :
    (∀ entry ∈ (stopEffect g s e).1, e ∉ entry.2)
    ∧ (stopEffect g s e).2.active = false
    ∧ (s.active = false → runEffectBasic g e s reads = (g, s))
    ∧ (s.active = false → runEffectRich g e s reads
        = (g, { s with runCount := s.runCount + 1 })) := by
  refine ⟨?_, rfl, fun h => by simp [runEffectBasic, h], fun h => by
    simp [runEffectRich, h]⟩
  intro entry hmem
  exact cleanup_removes_everywhere s.deps g e hInv entry
    (by simpa [stopEffect, cleanupEffect] using hmem)

/-- C4 amended-claim witness: a stopped effect `1` with empty `deps`
against a graph subscribing effect `2` only. -/
theorem C4_stop_detaches_effect_witness :
    (∀ entry ∈ (stopEffect [((0, RKey.str "x"), [2])]
        { active := false, deps := [], runCount := 5 } 1).1, 1 ∉ entry.2)
    ∧ (stopEffect [((0, RKey.str "x"), [2])]
        { active := false, deps := [], runCount := 5 } 1).2.active = false
    ∧ (({ active := false, deps := [], runCount := 5 } : EffSt).active = false →
        runEffectBasic [((0, RKey.str "x"), [2])] 1
          { active := false, deps := [], runCount := 5 } []
        = ([((0, RKey.str "x"), [2])],
            { active := false, deps := [], runCount := 5 }))
    ∧ (({ active := false, deps := [], runCount := 5 } : EffSt).active = false →
        runEffectRich [((0, RKey.str "x"), [2])] 1
          { active := false, deps := [], runCount := 5 } []
        = ([((0, RKey.str "x"), [2])],
            { active := false, deps := [], runCount := 6 })) :=
  C4_stop_detaches_effect [((0, RKey.str "x"), [2])]
    { active := false, deps := [], runCount := 5 } 1 [] (by decide)

/-- C7: `computed` memoizes.  Two reads of a fresh computed invoke the
getter exactly once and return the getter's value; in general a second
read never re-invokes the getter; a changing write to the tracked
dependency of a clean computed marks it dirty and notifies its
subscribers without invoking the getter; and the next read invokes the
getter exactly once more, returning the value over the new dependency
value. -/
theorem C7_computed_memoizes (f : Int → Int) (a v : Int) (s : CompSt)
    (hd : s.dirty = false) (hv : s.depVal ≠ v) :
    ((readValue f (computedInit a)).1.getterRuns = 1
      ∧ (readValue f (computedInit a)).2 = f a
      ∧ (readValue f (readValue f (computedInit a)).1).1.getterRuns = 1
      ∧ (readValue f (readValue f (computedInit a)).1).2 = f a)
    ∧ ((readValue f (readValue f s).1).1.getterRuns
        = (readValue f s).1.getterRuns)
    ∧ ((writeDep s v).dirty = true
      ∧ (writeDep s v).getterRuns = s.getterRuns
      ∧ (writeDep s v).notified = s.notified + 1)
    ∧ ((readValue f (writeDep s v)).1.getterRuns = s.getterRuns + 1
      ∧ (readValue f (writeDep s v)).2 = f v) := by
  refine ⟨⟨?_, ?_, ?_, ?_⟩, ?_, ⟨?_, ?_, ?_⟩, ?_, ?_⟩ <;>
    simp [readValue, writeDep, computedInit, hd, hv]

/-- C7 witness: `f = (· + 1)` with the clean state reached after one
read of `computed` over dependency value `5`, then writing `9`. -/
theorem C7_computed_memoizes_witness :
    ((readValue (· + 1) (computedInit 5)).1.getterRuns = 1
      ∧ (readValue (· + 1) (computedInit 5)).2 = (5 : Int) + 1
      ∧ (readValue (· + 1)
          (readValue (· + 1) (computedInit 5)).1).1.getterRuns = 1
      ∧ (readValue (· + 1) (readValue (· + 1) (computedInit 5)).1).2
          = (5 : Int) + 1)
    ∧ ((readValue (· + 1)
        (readValue (· + 1) (CompSt.mk 5 6 false 1 0)).1).1.getterRuns
      = (readValue (· + 1) (CompSt.mk 5 6 false 1 0)).1.getterRuns)
    ∧ ((writeDep (CompSt.mk 5 6 false 1 0) 9).dirty = true
      ∧ (writeDep (CompSt.mk 5 6 false 1 0) 9).getterRuns
          = (CompSt.mk 5 6 false 1 0).getterRuns
      ∧ (writeDep (CompSt.mk 5 6 false 1 0) 9).notified
          = (CompSt.mk 5 6 false 1 0).notified + 1)
    ∧ ((readValue (· + 1) (writeDep (CompSt.mk 5 6 false 1 0) 9)).1.getterRuns
          = (CompSt.mk 5 6 false 1 0).getterRuns + 1
      ∧ (readValue (· + 1) (writeDep (CompSt.mk 5 6 false 1 0) 9)).2
          = (9 : Int) + 1) :=
  C7_computed_memoizes (· + 1) 5 9 (CompSt.mk 5 6 false 1 0)
    (by decide) (by decide)

/-! ## Lemmas about scope disposal -/

mutual

/-- On an all-active tree, `stop` stops exactly the owned effects (own
first, then the children's recursively), invokes exactly the registered
cleanups in registration order (own first, then the children's), and
runs every descendant's stop body exactly once (preorder). -/
theorem stopScope_spec (s : Scope) (h : allActive s = true) :
    (stopScope s).2.1 = scopeEffects s
    ∧ (stopScope s).2.2.1 = scopeCleanups s
    ∧ (stopScope s).2.2.2 = scopeIds s :=
  match s with
  | .node i a effs cls children => by
    have ha : a = true ∧ allActiveList children = true := by
      simpa [allActive, Bool.and_eq_true] using h
    have ih := stopScopeList_spec children ha.2
    simp [stopScope, scopeEffects, scopeCleanups, scopeIds, ha.1,
      ih.1, ih.2.1, ih.2.2]

theorem stopScopeList_spec (l : List Scope) (h : allActiveList l = true) :
    (stopScopeList l).1 = scopeEffectsList l
    ∧ (stopScopeList l).2.1 = scopeCleanupsList l
    ∧ (stopScopeList l).2.2 = scopeIdsList l :=
  match l with
  | [] => by
    simp [stopScopeList, scopeEffectsList, scopeCleanupsList, scopeIdsList]
  | c :: rest => by
    have hcr : allActive c = true ∧ allActiveList rest = true := by
      simpa [allActiveList, Bool.and_eq_true] using h
    have i1 := stopScope_spec c hcr.1
    have i2 := stopScopeList_spec rest hcr.2
    simp [stopScopeList, scopeEffectsList, scopeCleanupsList, scopeIdsList,
      i1.1, i1.2.1, i1.2.2, i2.1, i2.2.1, i2.2.2]

end

/-- Stopping an inactive scope is a no-op. -/
theorem stopScope_inactive (i : Nat) (effs cls : List Nat)
    (children : List Scope) :
    stopScope (.node i false effs cls children)
      = (.node i false effs cls children, ([], [], [])) := by
  simp [stopScope]

/-- A stop leaves the scope inactive, so a second `stop()` does
nothing. -/
theorem stopScope_idempotent (s : Scope) :
    stopScope (stopScope s).1 = ((stopScope s).1, ([], [], [])) := by
  match s with
  | .node i a effs cls children =>
    cases a with
    | true =>
      have h1 : (stopScope (Scope.node i true effs cls children)).1
          = Scope.node i false [] [] [] := by
        simp [stopScope]
      rw [h1]
      exact stopScope_inactive i [] [] []
    | false =>
      have h1 : (stopScope (Scope.node i false effs cls children)).1
          = Scope.node i false effs cls children := by
        simp [stopScope]
      rw [h1]
      exact stopScope_inactive i effs cls children

theorem map_eraseIdx {α β : Type} (f : α → β) (l : List α) (n : Nat) :
    (l.eraseIdx n).map f = (l.map f).eraseIdx n := by
  induction l generalizing n with
  | nil => simp
  | cons x xs ih =>
    cases n with
    | zero => simp
    | succ n => simp [List.eraseIdx_cons_succ, ih]

theorem nodup_get_not_mem_eraseIdx {l : List Nat} (h : l.Nodup) (n : Nat)
    (hn : n < l.length) : l.get ⟨n, hn⟩ ∉ l.eraseIdx n := by
  induction l generalizing n with
  | nil => simp at hn
  | cons x xs ih =>
    rcases List.nodup_cons.mp h with ⟨hx, hxs⟩
    cases n with
    | zero => simpa using hx
    | succ n =>
      have hn' : n < xs.length := Nat.lt_of_succ_lt_succ hn
      intro hmem
      rw [List.eraseIdx_cons_succ] at hmem
      rcases List.mem_cons.mp hmem with heq | hmem
      · exact hx (heq ▸ List.get_mem xs n hn')
      · exact ih hxs n hn' hmem

/-- C9: stopping an effect scope stops every effect it owns, invokes the
registered cleanups exactly once in registration order, runs every
descendant scope's stop body exactly once, detaches the stopped child
from its parent's child set, and a second `stop()` on the now-inactive
scope is a no-op. -/
theorem C9_scope_stop_transitive (s : Scope) (i : Nat) (a : Bool)
    (effs cls : List Nat) (children : List Scope) (n : Nat)
    (h : allActive s = true) (hn : n < children.length)
    (hroots : (children.map scopeRootId).Nodup) :
    ((stopScope s).2.1 = scopeEffects s
      ∧ (stopScope s).2.2.1 = scopeCleanups s
      ∧ (stopScope s).2.2.2 = scopeIds s)
    ∧ stopScope (stopScope s).1 = ((stopScope s).1, ([], [], []))
    ∧ (stopChildScope (.node i a effs cls children) n).1
        = .node i a effs cls (children.eraseIdx n)
    ∧ scopeRootId (children.get ⟨n, hn⟩)
        ∉ ((children.eraseIdx n).map scopeRootId) := by
  have hc : children[n]? = some (children.get ⟨n, hn⟩) := by
    rw [List.getElem?_eq_getElem hn]
    rfl
  refine ⟨stopScope_spec s h, stopScope_idempotent s, ?_, ?_⟩
  · simp [stopChildScope, hc]
  · rw [map_eraseIdx]
    have hg : scopeRootId (children.get ⟨n, hn⟩)
        = (children.map scopeRootId).get ⟨n, by simpa using hn⟩ := by
      simp
    rw [hg]
    exact nodup_get_not_mem_eraseIdx hroots n (by simpa using hn)

/-- C9 witness: a two-level active tree — root `0` owning effects 1, 2
and cleanup 10, with one child `1` owning effect 3 and cleanup 11 — and
a parent with two distinct children `5`, `6` from which child index 0 is
stopped. -/
theorem C9_scope_stop_transitive_witness :
    ((stopScope (.node 0 true [1, 2] [10]
        [.node 1 true [3] [11] []])).2.1
      = scopeEffects (.node 0 true [1, 2] [10] [.node 1 true [3] [11] []])
      ∧ (stopScope (.node 0 true [1, 2] [10]
          [.node 1 true [3] [11] []])).2.2.1
        = scopeCleanups (.node 0 true [1, 2] [10] [.node 1 true [3] [11] []])
      ∧ (stopScope (.node 0 true [1, 2] [10]
          [.node 1 true [3] [11] []])).2.2.2
        = scopeIds (.node 0 true [1, 2] [10] [.node 1 true [3] [11] []]))
    ∧ stopScope (stopScope (.node 0 true [1, 2] [10]
          [.node 1 true [3] [11] []])).1
        = ((stopScope (.node 0 true [1, 2] [10]
            [.node 1 true [3] [11] []])).1, ([], [], []))
    ∧ (stopChildScope (.node 4 true [] []
          [.node 5 true [] [] [], .node 6 true [] [] []]) 0).1
        = .node 4 true [] []
            ([.node 5 true [] [] [], .node 6 true [] [] []].eraseIdx 0)
    ∧ scopeRootId ([.node 5 true [] [] [],
          .node 6 true [] [] []].get ⟨0, by decide⟩)
        ∉ (([.node 5 true [] [] [],
            .node 6 true [] [] []].eraseIdx 0).map scopeRootId) :=
  C9_scope_stop_transitive (.node 0 true [1, 2] [10] [.node 1 true [3] [11] []])
    4 true [] [] [.node 5 true [] [] [], .node 6 true [] [] []] 0
    (by rfl) (by decide) (by decide)

end Rouse
